import Mathlib

/-!
Verification of the DNS reconciliation core of the cloudflare speed-test web
tool (src/main.go, with the historical variants in src/unnamed).

Conventions of the embedding:
* Go strings are modeled as lists of characters (`Str`).  Go indexes bytes;
  the two coincide on ASCII input, which is the domain of DNS names and of
  every example in the specification.  `strings.ToLower` is modeled
  character-wise by `Char.toLower` (faithful on ASCII).
* The remote DNS zone API is an external collaborator (spec section 1); its
  store is modeled from the interface described in spec sections 6 and 9.
  Every modeled API call succeeds; failure paths of individual HTTP calls are
  outside the modeled environment.
* Effectful functions are state transformers on a world `W` that carries the
  remote record store and the trace of operations and log lines issued so far.
-/

namespace CFST

/-- Go strings, modeled as character lists. -/
abbrev Str := List Char

/-- Conversion from Lean string literals to the model type. -/
def str (s : String) : Str := s.toList

/-- Model of strings.ToLower, applied character-wise (faithful on ASCII). -/
def toLowerStr (s : Str) : Str := s.map Char.toLower

/-- Record-name computation of updateCloudflareDNS (src/main.go:238-248):
with a non-empty zone name, compare the lower-cased domain with the
lower-cased zone; the apex becomes the marker "@", a domain carrying the
".zone" suffix is cut to its leading bytes (original case preserved), and
anything else is kept verbatim. -/
def recordNameOf (domain zoneName : Str) : Str :=
  if zoneName = [] then domain
  else
    let domainLower := toLowerStr domain
    let zoneLower := toLowerStr zoneName
    if domainLower = zoneLower then str "@"
    else if ('.' :: zoneLower) <:+ domainLower then
      domain.take (domain.length - zoneLower.length - 1)
    else domain

theorem toLowerStr_length (s : Str) : (toLowerStr s).length = s.length := by
  simp [toLowerStr]

theorem suffix_ne_lower {domain zone : Str}
    (hsuf : ('.' :: toLowerStr zone) <:+ toLowerStr domain) :
    toLowerStr domain ≠ toLowerStr zone := by
  intro heq
  have hlen := hsuf.length_le
  rw [heq] at hlen
  simp at hlen

/-- C1: for every domain FQDN and resolved zone name, the computed record
name is the apex marker when the FQDN equals the zone case-insensitively, the
FQDN with the ".zone" suffix removed when it carries that suffix
case-insensitively, and the FQDN verbatim otherwise (including an empty
zone name). -/
theorem recordName_cases (domain zone : Str) :
    (zone ≠ [] → toLowerStr domain = toLowerStr zone →
      recordNameOf domain zone = str "@")
    ∧ (zone ≠ [] → ('.' :: toLowerStr zone) <:+ toLowerStr domain →
      recordNameOf domain zone = domain.take (domain.length - zone.length - 1))
    ∧ (zone = [] → recordNameOf domain zone = domain)
    ∧ (zone ≠ [] → toLowerStr domain ≠ toLowerStr zone →
      ¬ (('.' :: toLowerStr zone) <:+ toLowerStr domain) →
      recordNameOf domain zone = domain) := by
  refine ⟨?_, ?_, ?_, ?_⟩
  · intro hz heq
    simp [recordNameOf, hz, heq]
  · intro hz hsuf
    have hne := suffix_ne_lower hsuf
    simp [recordNameOf, hz, hne, hsuf, toLowerStr_length]
  · intro hz
    simp [recordNameOf, hz]
  · intro hz hne hnsuf
    simp [recordNameOf, hz, hne, hnsuf]

/-- Witness for recordName_cases: the three spec examples, one per branch. -/
theorem recordName_cases_witness :
    recordNameOf (str "example.com") (str "example.com") = str "@"
    ∧ recordNameOf (str "sub.example.com") (str "example.com") = str "sub"
    ∧ recordNameOf (str "other.org") (str "") = str "other.org"
    ∧ recordNameOf (str "other.org") (str "example.com") = str "other.org" := by
  refine ⟨?_, ?_, ?_, ?_⟩
  · exact (recordName_cases (str "example.com") (str "example.com")).1
      (by decide) (by decide)
  · exact Eq.trans
      ((recordName_cases (str "sub.example.com") (str "example.com")).2.1
        (by decide) (by decide))
      (by decide)
  · exact (recordName_cases (str "other.org") (str "")).2.2.1 (by decide)
  · exact (recordName_cases (str "other.org") (str "example.com")).2.2.2
      (by decide) (by decide) (by decide)

/-- C10: for a proper case-insensitive subdomain, the record name is the
first len(domain) - len(zone) - 1 characters of the domain as configured:
the suffix test runs on lower-cased copies, the returned prefix keeps the
original case, and the lower-cased domain decomposes as the lower-cased
record name followed by "." and the lower-cased zone. -/
theorem recordName_case_preserved (domain zone : Str)
    (hz : zone ≠ [])
    (hsuf : ('.' :: toLowerStr zone) <:+ toLowerStr domain) :
    recordNameOf domain zone = domain.take (domain.length - zone.length - 1)
    ∧ toLowerStr domain =
        toLowerStr (recordNameOf domain zone) ++ '.' :: toLowerStr zone := by
  have hne := suffix_ne_lower hsuf
  have hmain : recordNameOf domain zone =
      domain.take (domain.length - zone.length - 1) := by
    simp [recordNameOf, hz, hne, hsuf, toLowerStr_length]
  refine ⟨hmain, ?_⟩
  obtain ⟨pre, hpre⟩ := hsuf
  have hlen : pre.length = domain.length - zone.length - 1 := by
    have := congrArg List.length hpre
    simp [toLowerStr_length] at this
    omega
  have hstep : toLowerStr (domain.take (domain.length - zone.length - 1)) = pre := by
    simp only [toLowerStr] at hpre ⊢
    rw [List.map_take, ← hpre]
    exact List.take_left' hlen
  rw [hmain, hstep]
  exact hpre.symm

/-- Witness for recordName_case_preserved at a mixed-case input: the suffix
matches case-insensitively while the kept prefix preserves "YX". -/
theorem recordName_case_preserved_witness :
    recordNameOf (str "YX.Example.Com") (str "example.com") = str "YX"
    ∧ toLowerStr (str "YX.Example.Com") =
        toLowerStr (recordNameOf (str "YX.Example.Com") (str "example.com"))
          ++ '.' :: toLowerStr (str "example.com") := by
  constructor
  · exact Eq.trans
      ((recordName_case_preserved (str "YX.Example.Com") (str "example.com")
        (by decide) (by decide)).1)
      (by decide)
  · exact (recordName_case_preserved (str "YX.Example.Com") (str "example.com")
      (by decide) (by decide)).2

/-! ### Result parser (src/main.go:343-357) -/

/-- One decoded CSV record: its list of fields. -/
abbrev Row := List Str

/-- The collection loop of parseResultCSV (src/main.go:351-355) as it runs on
the rows after the header: stop as soon as `mx` addresses are collected,
otherwise append column 0 of each non-empty row.  `mx` is a Go int. -/
def ipLoop (mx : Int) : List Row → List Str → List Str
  | [], acc => acc
  | row :: rest, acc =>
    if mx ≤ (acc.length : Int) then acc
    else
      match row with
      | [] => ipLoop mx rest acc
      | x :: _ => ipLoop mx rest (acc ++ [x])

/-- parseResultCSV (src/main.go:343-357) on the outcome of the CSV decode:
`none` models a file-open or decode failure (the Go function returns nil),
`some rows` the decoded records, whose row 0 is the discarded header. -/
def parseResultCSV (decoded : Option (List Row)) (mx : Int) : List Str :=
  match decoded with
  | none => []
  | some [] => []
  | some (_ :: dataRows) => ipLoop mx dataRows []

theorem ipLoop_eq (mx : Int) (rows : List Row) (acc : List Str)
    (h : ∀ r ∈ rows, r ≠ ([] : Row)) :
    ipLoop mx rows acc =
      acc ++ (rows.filterMap List.head?).take (mx.toNat - acc.length) := by
  induction rows generalizing acc with
  | nil => simp [ipLoop]
  | cons row rest ih =>
    have hrow : row ≠ ([] : Row) := h row (List.mem_cons_self row rest)
    have hrest : ∀ r ∈ rest, r ≠ ([] : Row) := fun r hr => h r (List.mem_cons_of_mem row hr)
    by_cases hstop : mx ≤ (acc.length : Int)
    · have hz : mx.toNat - acc.length = 0 := by omega
      simp [ipLoop, hstop, hz]
    · obtain ⟨x, xs, rfl⟩ : ∃ x xs, row = x :: xs := by
        cases row with
        | nil => exact absurd rfl hrow
        | cons x xs => exact ⟨x, xs, rfl⟩
      have hpos : acc.length + 1 ≤ mx.toNat := by omega
      rw [ipLoop]
      simp only [hstop, if_false]
      rw [ih _ hrest]
      have htake : mx.toNat - acc.length = (mx.toNat - (acc.length + 1)) + 1 := by omega
      simp [htake, List.take_succ_cons, List.append_assoc]

theorem filterMap_head_length (rows : List Row)
    (h : ∀ r ∈ rows, r ≠ ([] : Row)) :
    (rows.filterMap List.head?).length = rows.length := by
  induction rows with
  | nil => simp
  | cons row rest ih =>
    have hrow : row ≠ ([] : Row) := h row (List.mem_cons_self row rest)
    cases row with
    | nil => exact absurd rfl hrow
    | cons x xs =>
      simp [List.filterMap_cons, ih (fun r hr => h r (List.mem_cons_of_mem _ hr))]

/-- C5: for a decoded CSV of one header row and N data rows (each non-empty,
as the CSV decoder guarantees for well-formed input) and a requested maximum
M, the parser returns the first min(M, N) column-0 entries of the data rows
in row order, and a decode or open failure yields the empty result. -/
theorem parseResultCSV_spec (header : Row) (dataRows : List Row) (M : Nat)
    (h : ∀ r ∈ dataRows, r ≠ ([] : Row)) :
    parseResultCSV (some (header :: dataRows)) (M : Int) =
      (dataRows.filterMap List.head?).take M
    ∧ (parseResultCSV (some (header :: dataRows)) (M : Int)).length =
        min M dataRows.length
    ∧ parseResultCSV none (M : Int) = [] := by
  have hmain : parseResultCSV (some (header :: dataRows)) (M : Int) =
      (dataRows.filterMap List.head?).take M := by
    show ipLoop (M : Int) dataRows [] = _
    rw [ipLoop_eq _ _ _ h]
    simp
  refine ⟨hmain, ?_, rfl⟩
  rw [hmain, List.length_take, filterMap_head_length dataRows h]

/-- Witness for parseResultCSV_spec: three data rows, maximum 2. -/
theorem parseResultCSV_spec_witness :
    parseResultCSV
        (some [[str "IP", str "Speed"], [str "1.1.1.1", str "9"],
          [str "2.2.2.2", str "8"], [str "3.3.3.3", str "7"]]) (2 : Int) =
      [str "1.1.1.1", str "2.2.2.2"]
    ∧ (parseResultCSV
        (some [[str "IP", str "Speed"], [str "1.1.1.1", str "9"],
          [str "2.2.2.2", str "8"], [str "3.3.3.3", str "7"]]) (2 : Int)).length = 2 := by
  have h := parseResultCSV_spec [str "IP", str "Speed"]
    [[str "1.1.1.1", str "9"], [str "2.2.2.2", str "8"], [str "3.3.3.3", str "7"]]
    2 (by decide)
  exact ⟨Eq.trans h.1 (by decide), Eq.trans h.2.1 (by decide)⟩

/-! ### Remote record store and operation trace -/

/-- Modelled from the spec: one record of the remote DNS store (spec
sections 3 and 6) — an opaque identifier, the fully-qualified name the
service keeps for it, and the address content. -/
structure DNSRec where
  id : Nat
  qname : Str
  content : Str
deriving DecidableEq

/-- Modelled from the spec: the remote record store, with a counter issuing
fresh identifiers for created records. -/
structure CFState where
  records : List DNSRec
  nextId : Nat
deriving DecidableEq

/-- The log lines the reconciliation path can emit (src/main.go and the
historical variant src/unnamed/part_001; warnSkip exists only in the
variant). -/
inductive LogMsg where
  | taskSkipped
  | taskStart
  | errNoCfst
  | combineFail
  | errNoIPFile
  | errNoDomains
  | zoneAuto (z : Str)
  | zoneAutoFail
  | zoneConfigured (z : Str)
  | countAdjusted (n : Int)
  | cmdLine
  | startFail
  | noIPs
  | gotIPs (n : Nat)
  | apiMissing
  | updateSingle (d : Str)
  | updateMulti (n : Nat)
  | arrow (d ip : Str)
  | warnSkip (d : Str)
  | taskDone
deriving DecidableEq

/-- One observable operation: a record-list fetch, a record deletion, a
record creation, or a log line. -/
inductive Op where
  | list (d : Str)
  | del (i : Nat)
  | create (name content : Str)
  | log (m : LogMsg)
deriving DecidableEq

/-- The world the effectful code threads: the remote store plus the trace of
operations issued so far.  Every modeled API call succeeds. -/
structure W where
  state : CFState
  trace : List Op
deriving DecidableEq

/-- GET dns_records?name=domain (src/main.go:283-301): identifiers of the
records whose stored name equals the queried domain. -/
def getDNSRecords (d : Str) (s : CFState) : List Nat :=
  (s.records.filter (fun r => decide (r.qname = d))).map (fun r => r.id)

/-- DELETE dns_records/id (src/main.go:303-308) on the modeled store. -/
def deleteRec (i : Nat) (s : CFState) : CFState :=
  { s with records := s.records.filter (fun r => decide (r.id ≠ i)) }

/-- POST dns_records (src/main.go:310-323) on the modeled store: the service
assigns a fresh identifier and derives the stored fully-qualified name from
the submitted record name through `assign`, the environment's name
canonicalization. -/
def createRec (assign : Str → Str) (name content : Str) (s : CFState) : CFState :=
  { records := s.records ++ [⟨s.nextId, assign name, content⟩],
    nextId := s.nextId + 1 }

def doLog (m : LogMsg) (w : W) : W :=
  { w with trace := w.trace ++ [Op.log m] }

def doDelete (i : Nat) (w : W) : W :=
  { state := deleteRec i w.state, trace := w.trace ++ [Op.del i] }

def doCreate (assign : Str → Str) (name content : Str) (w : W) : W :=
  { state := createRec assign name content w.state,
    trace := w.trace ++ [Op.create name content] }

def doList (d : Str) (w : W) : List Nat × W :=
  (getDNSRecords d w.state, { w with trace := w.trace ++ [Op.list d] })

/-- updateCloudflareDNS (src/main.go:228-262): fetch the records under the
full domain name, compute the record name, delete every fetched record, then
create one record per new address under the computed name.  The per-call
failure branches are outside the modeled always-succeeding environment. -/
def updateCloudflareDNS (assign : Str → Str) (domain : Str) (newIPs : List Str)
    (zoneName : Str) (w : W) : W :=
  let p := doList domain w
  let recordName := recordNameOf domain zoneName
  let w1 := p.1.foldl (fun acc i => doDelete i acc) p.2
  newIPs.foldl (fun acc ip => doCreate assign recordName ip acc) w1

/-- The 1:1 distribution loop of updateDNSStrategy (src/main.go:221-225).
The remaining endpoint list stands for ips[i:]; the loop breaks, without any
log line, at the first domain left without an endpoint. -/
def multiLoop (assign : Str → Str) (zoneName : Str) :
    List Str → List Str → W → W
  | [], _, w => w
  | _ :: _, [], w => w
  | d :: drest, ip :: irest, w =>
    let w := doLog (.arrow d ip) w
    let w := updateCloudflareDNS assign d [ip] zoneName w
    multiLoop assign zoneName drest irest w

/-- The same loop in the historical variant (src/unnamed/part_001:233-240),
which logs one warning when it breaks at the first endpoint-less domain. -/
def multiLoopLegacy (assign : Str → Str) (zoneName : Str) :
    List Str → List Str → W → W
  | [], _, w => w
  | d :: _, [], w => doLog (.warnSkip d) w
  | d :: drest, ip :: irest, w =>
    let w := doLog (.arrow d ip) w
    let w := updateCloudflareDNS assign d [ip] zoneName w
    multiLoopLegacy assign zoneName drest irest w

/-- The effective result cap: the configured max-result, defaulting to 10
when that value is not positive (the idiom at src/main.go:143-144 and
211-212). -/
def effLimit (maxResult : Int) : Int := if maxResult ≤ 0 then 10 else maxResult

/-- The API credentials and the result cap the strategy reads from the
configuration. -/
structure ApiCfg where
  zoneID : Str
  apiKey : Str
  maxResult : Int
deriving DecidableEq

/-- updateDNSStrategy (src/main.go:203-226): skip with a log line when the
credentials are absent; with exactly one domain, truncate the endpoints to
the result cap (default 10) and fan them out onto that domain; otherwise
distribute endpoints 1:1 over the domains in order. -/
def updateDNSStrategy (assign : Str → Str) (cfg : ApiCfg)
    (domains ips : List Str) (zoneName : Str) (w : W) : W :=
  if cfg.zoneID = [] ∨ cfg.apiKey = [] then doLog .apiMissing w
  else
    match domains with
    | [d] =>
      let limit : Int := effLimit cfg.maxResult
      let ips2 := if limit < (ips.length : Int) then ips.take limit.toNat else ips
      let w := doLog (.updateSingle d) w
      updateCloudflareDNS assign d ips2 zoneName w
    | _ =>
      let w := doLog (.updateMulti domains.length) w
      multiLoop assign zoneName domains ips w

/-- The records a create-fold appends: fresh increasing identifiers from
`n`, all under the canonicalized name `assign rn`. -/
def createdRecs (assign : Str → Str) (rn : Str) (n : Nat) : List Str → List DNSRec
  | [] => []
  | ip :: rest => ⟨n, assign rn, ip⟩ :: createdRecs assign rn (n + 1) rest

theorem foldl_doDelete (ids : List Nat) (w : W) :
    ids.foldl (fun acc i => doDelete i acc) w =
      { state := { records := w.state.records.filter (fun r => decide (r.id ∉ ids)),
                   nextId := w.state.nextId },
        trace := w.trace ++ ids.map Op.del } := by
  induction ids generalizing w with
  | nil =>
    have : (fun r : DNSRec => decide (r.id ∉ ([] : List Nat))) = fun _ => true := by
      funext r; simp
    simp [this]
  | cons i ids ih =>
    rw [List.foldl_cons, ih]
    have hrec : ((doDelete i w).state.records.filter (fun r => decide (r.id ∉ ids)))
        = w.state.records.filter (fun r => decide (r.id ∉ i :: ids)) := by
      show ((w.state.records.filter (fun r => decide (r.id ≠ i))).filter
        (fun r => decide (r.id ∉ ids))) = _
      rw [List.filter_filter]
      apply List.filter_congr
      intro r _
      by_cases h1 : r.id = i <;> by_cases h2 : r.id ∈ ids <;> simp [h1, h2]
    simp only [doDelete, deleteRec] at hrec ⊢
    rw [hrec]
    simp [List.append_assoc]

theorem foldl_doCreate (assign : Str → Str) (rn : Str) (ips : List Str) (w : W) :
    ips.foldl (fun acc ip => doCreate assign rn ip acc) w =
      { state := { records := w.state.records
                     ++ createdRecs assign rn w.state.nextId ips,
                   nextId := w.state.nextId + ips.length },
        trace := w.trace ++ ips.map (fun ip => Op.create rn ip) } := by
  induction ips generalizing w with
  | nil => simp [createdRecs]
  | cons ip ips ih =>
    rw [List.foldl_cons, ih]
    simp [doCreate, createRec, createdRecs, List.append_assoc]
    omega

/-- Full characterization of one updateCloudflareDNS call: the resulting
store and the operations it appends to the trace. -/
theorem updateCF_eq (assign : Str → Str) (d : Str) (ips : List Str)
    (zone : Str) (w : W) :
    updateCloudflareDNS assign d ips zone w =
      ⟨⟨(w.state.records.filter (fun r => decide (r.id ∉ getDNSRecords d w.state)))
          ++ createdRecs assign (recordNameOf d zone) w.state.nextId ips,
        w.state.nextId + ips.length⟩,
       w.trace ++ Op.list d ::
         ((getDNSRecords d w.state).map Op.del
           ++ ips.map (fun ip => Op.create (recordNameOf d zone) ip))⟩ := by
  simp only [updateCloudflareDNS, doList]
  rw [foldl_doDelete, foldl_doCreate]
  simp [List.append_assoc]

/-- Modelled from the spec: the name canonicalization the remote service was
observed to apply (spec sections 4.4 and 9): a submitted record name is
completed with the zone suffix, the apex marker standing for the zone
itself. -/
def cfAssign (zone : Str) (name : Str) : Str :=
  if name = str "@" then zone else name ++ '.' :: zone

/-! ### Trace observations -/

/-- The (name, content) pairs of the creation operations of a trace, in
order. -/
def createOps : List Op → List (Str × Str)
  | [] => []
  | Op.create n c :: rest => (n, c) :: createOps rest
  | Op.list _ :: rest => createOps rest
  | Op.del _ :: rest => createOps rest
  | Op.log _ :: rest => createOps rest

/-- Recognizes the per-skipped-domain warning log line. -/
def isWarnSkip : Op → Bool
  | Op.log (.warnSkip _) => true
  | _ => false

/-- Recognizes remote API operations (everything except log lines). -/
def isApiOp : Op → Bool
  | Op.log _ => false
  | _ => true

theorem createOps_append (l₁ l₂ : List Op) :
    createOps (l₁ ++ l₂) = createOps l₁ ++ createOps l₂ := by
  induction l₁ with
  | nil => simp [createOps]
  | cons op rest ih => cases op <;> simp [createOps, ih]

theorem createOps_map_del (ids : List Nat) :
    createOps (ids.map Op.del) = [] := by
  induction ids with
  | nil => rfl
  | cons i ids ih => simp [createOps, ih]

theorem createOps_map_create (rn : Str) (ips : List Str) :
    createOps (ips.map (fun ip => Op.create rn ip)) =
      ips.map (fun ip => (rn, ip)) := by
  induction ips with
  | nil => rfl
  | cons ip ips ih => simp [createOps, ih]

theorem filter_warn_map_del (ids : List Nat) :
    (ids.map Op.del).filter isWarnSkip = [] := by
  rw [List.filter_eq_nil_iff]
  intro a ha
  obtain ⟨i, _, rfl⟩ := List.mem_map.mp ha
  simp [isWarnSkip]

theorem filter_warn_map_create (rn : Str) (ips : List Str) :
    (ips.map (fun ip => Op.create rn ip)).filter isWarnSkip = [] := by
  rw [List.filter_eq_nil_iff]
  intro a ha
  obtain ⟨i, _, rfl⟩ := List.mem_map.mp ha
  simp [isWarnSkip]

theorem truncate_eq (limit : Int) (hpos : 0 < limit) (ips : List Str) :
    (if limit < (ips.length : Int) then ips.take limit.toNat else ips) =
      ips.take limit.toNat := by
  split
  · rfl
  · next h =>
    have hle : ips.length ≤ limit.toNat := by omega
    exact (List.take_of_length_le hle).symm

theorem effLimit_pos (maxResult : Int) : 0 < effLimit maxResult := by
  simp only [effLimit]
  split <;> omega

/-- C2: with exactly one domain and credentials present, reconciliation
first fetches and deletes every record stored under the domain name, then
issues exactly min(K, C) creations, all under the single computed record
name, where C is the effective result cap. -/
theorem singleDomain_reconcile (assign : Str → Str) (cfg : ApiCfg) (d zone : Str)
    (ips : List Str) (s : CFState)
    (hz : cfg.zoneID ≠ []) (hk : cfg.apiKey ≠ []) :
    (updateDNSStrategy assign cfg [d] ips zone ⟨s, []⟩).trace =
      Op.log (.updateSingle d) :: Op.list d ::
        ((getDNSRecords d s).map Op.del
          ++ (ips.take (effLimit cfg.maxResult).toNat).map
              (fun ip => Op.create (recordNameOf d zone) ip))
    ∧ (createOps (updateDNSStrategy assign cfg [d] ips zone ⟨s, []⟩).trace).length =
        min ips.length (effLimit cfg.maxResult).toNat
    ∧ ∀ p ∈ createOps (updateDNSStrategy assign cfg [d] ips zone ⟨s, []⟩).trace,
        p.1 = recordNameOf d zone := by
  have hcred : ¬ (cfg.zoneID = [] ∨ cfg.apiKey = []) := by tauto
  have htr : (updateDNSStrategy assign cfg [d] ips zone ⟨s, []⟩).trace =
      Op.log (.updateSingle d) :: Op.list d ::
        ((getDNSRecords d s).map Op.del
          ++ (ips.take (effLimit cfg.maxResult).toNat).map
              (fun ip => Op.create (recordNameOf d zone) ip)) := by
    simp only [updateDNSStrategy, hcred, if_false]
    rw [truncate_eq _ (effLimit_pos cfg.maxResult)]
    rw [updateCF_eq]
    simp [doLog]
  have hcreate : createOps (updateDNSStrategy assign cfg [d] ips zone ⟨s, []⟩).trace =
      (ips.take (effLimit cfg.maxResult).toNat).map
        (fun ip => (recordNameOf d zone, ip)) := by
    rw [htr]
    simp only [createOps, createOps_append, createOps_map_del,
      createOps_map_create, List.nil_append]
  refine ⟨htr, ?_, ?_⟩
  · rw [hcreate]
    simp [Nat.min_comm]
  · intro p hp
    rw [hcreate] at hp
    obtain ⟨ip, _, rfl⟩ := List.mem_map.mp hp
    rfl

/-- Witness for singleDomain_reconcile: one existing record, three
endpoints, cap 2. -/
theorem singleDomain_reconcile_witness :
    (updateDNSStrategy (cfAssign (str "example.com")) ⟨str "z", str "k", 2⟩
        [str "sub.example.com"] [str "1.1.1.1", str "2.2.2.2", str "3.3.3.3"]
        (str "example.com")
        ⟨⟨[⟨5, str "sub.example.com", str "9.9.9.9"⟩], 7⟩, []⟩).trace =
      [Op.log (.updateSingle (str "sub.example.com")),
        Op.list (str "sub.example.com"), Op.del 5,
        Op.create (str "sub") (str "1.1.1.1"),
        Op.create (str "sub") (str "2.2.2.2")] := by
  exact Eq.trans
    ((singleDomain_reconcile (cfAssign (str "example.com")) ⟨str "z", str "k", 2⟩
      (str "sub.example.com") (str "example.com")
      [str "1.1.1.1", str "2.2.2.2", str "3.3.3.3"]
      ⟨[⟨5, str "sub.example.com", str "9.9.9.9"⟩], 7⟩
      (by decide) (by decide)).1)
    (by decide)

theorem multiLoop_trace (assign : Str → Str) (zone : Str)
    (domains ips : List Str) (w : W) :
    createOps (multiLoop assign zone domains ips w).trace =
      createOps w.trace
        ++ (domains.zip ips).map (fun p => (recordNameOf p.1 zone, p.2))
    ∧ (multiLoop assign zone domains ips w).trace.filter isWarnSkip =
        w.trace.filter isWarnSkip := by
  induction domains generalizing ips w with
  | nil => simp [multiLoop]
  | cons d drest ih =>
    cases ips with
    | nil => simp [multiLoop]
    | cons ip irest =>
      have hstep := ih irest
        (updateCloudflareDNS assign d [ip] zone (doLog (.arrow d ip) w))
      rw [multiLoop]
      refine ⟨?_, ?_⟩
      · rw [hstep.1, updateCF_eq]
        simp [doLog, createOps_append, createOps_map_del, createOps,
          createOps_map_create, List.zip_cons_cons]
      · rw [hstep.2, updateCF_eq]
        simp [doLog, List.filter_append, filter_warn_map_del,
          filter_warn_map_create, isWarnSkip]

/-- C3 (amended): with D at least 2 domains, K < D endpoints and credentials
present, reconciliation creates exactly one record per endpoint, pairing the
domain at position i with the endpoint at position i for the first K
domains; the remaining domains receive no operation, and no per-domain
warning is logged (the loop of the current code breaks silently). -/
theorem multiDomain_reconcile (assign : Str → Str) (cfg : ApiCfg)
    (domains ips : List Str) (zone : Str) (s : CFState)
    (hz : cfg.zoneID ≠ []) (hk : cfg.apiKey ≠ []) (hD : 2 ≤ domains.length)
    (hK : ips.length < domains.length) :
    createOps (updateDNSStrategy assign cfg domains ips zone ⟨s, []⟩).trace =
      (domains.zip ips).map (fun p => (recordNameOf p.1 zone, p.2))
    ∧ (createOps (updateDNSStrategy assign cfg domains ips zone ⟨s, []⟩).trace).length
        = ips.length
    ∧ ((updateDNSStrategy assign cfg domains ips zone ⟨s, []⟩).trace.filter
        isWarnSkip).length = 0 := by
  have hcred : ¬ (cfg.zoneID = [] ∨ cfg.apiKey = []) := by tauto
  obtain ⟨a, rest, rfl⟩ : ∃ a rest, domains = a :: rest := by
    cases domains with
    | nil => simp at hD
    | cons a rest => exact ⟨a, rest, rfl⟩
  obtain ⟨b, t, rfl⟩ : ∃ b t, rest = b :: t := by
    cases rest with
    | nil => simp at hD
    | cons b t => exact ⟨b, t, rfl⟩
  have hloop := multiLoop_trace assign zone (a :: b :: t) ips
    (doLog (.updateMulti (a :: b :: t).length) ⟨s, []⟩)
  have hrun : updateDNSStrategy assign cfg (a :: b :: t) ips zone ⟨s, []⟩ =
      multiLoop assign zone (a :: b :: t) ips
        (doLog (.updateMulti (a :: b :: t).length) ⟨s, []⟩) := by
    simp only [updateDNSStrategy, hcred, if_false]
  rw [hrun]
  have hzlen : ((a :: b :: t).zip ips).length = ips.length := by
    rw [List.length_zip]
    omega
  refine ⟨?_, ?_, ?_⟩
  · rw [hloop.1]; simp [doLog, createOps]
  · rw [hloop.1]; simp [doLog, createOps, hzlen]
  · rw [hloop.2]; simp [doLog, isWarnSkip]

/-- Witness for multiDomain_reconcile: three domains, one endpoint. -/
theorem multiDomain_reconcile_witness :
    createOps ((updateDNSStrategy (cfAssign (str "example.com"))
        ⟨str "z", str "k", 10⟩
        [str "a.example.com", str "b.example.com", str "c.example.com"]
        [str "1.1.1.1"] (str "example.com") ⟨⟨[], 0⟩, []⟩).trace) =
      [(str "a", str "1.1.1.1")] := by
  exact Eq.trans
    ((multiDomain_reconcile (cfAssign (str "example.com")) ⟨str "z", str "k", 10⟩
      [str "a.example.com", str "b.example.com", str "c.example.com"]
      [str "1.1.1.1"] (str "example.com") ⟨[], 0⟩
      (by decide) (by decide) (by decide) (by decide)).1)
    (by decide)

/-- C3 counterexample: three domains and one endpoint, so two domains are
skipped.  The claim demands one logged warning per skipped domain (two in
total); the current code (src/main.go:221-225) logs none, and the historical
variant (src/unnamed/part_001:233-240) logs exactly one before breaking. -/
theorem multiDomain_warning_counterexample :
    ((updateDNSStrategy (cfAssign (str "example.com")) ⟨str "z", str "k", 10⟩
        [str "a.example.com", str "b.example.com", str "c.example.com"]
        [str "1.1.1.1"] (str "example.com") ⟨⟨[], 0⟩, []⟩).trace.filter
        isWarnSkip).length = 0
    ∧ ((multiLoopLegacy (cfAssign (str "example.com")) (str "example.com")
        [str "a.example.com", str "b.example.com", str "c.example.com"]
        [str "1.1.1.1"] ⟨⟨[], 0⟩, []⟩).trace.filter isWarnSkip).length = 1
    ∧ [str "a.example.com", str "b.example.com", str "c.example.com"].length
        - [str "1.1.1.1"].length = 2
    ∧ (0 : Nat) ≠ 2 ∧ (1 : Nat) ≠ 2 := by
  decide

/-! ### Observable store and idempotence of reconciliation -/

/-- The observable record set of the store: its (name, content) pairs in
order.  Identifiers are invisible to DNS clients. -/
def obs (s : CFState) : List (Str × Str) :=
  s.records.map (fun r => (r.qname, r.content))

/-- Store well-formedness: record identifiers are pairwise distinct and
below the fresh-identifier counter. -/
def WF (s : CFState) : Prop :=
  (s.records.map (fun r => r.id)).Nodup ∧ ∀ r ∈ s.records, r.id < s.nextId

theorem createdRecs_strip (assign : Str → Str) (rn : Str) (n : Nat)
    (ips : List Str) :
    (createdRecs assign rn n ips).map (fun r => (r.qname, r.content)) =
      ips.map (fun ip => (assign rn, ip)) := by
  induction ips generalizing n with
  | nil => rfl
  | cons ip ips ih => simp [createdRecs, ih]

theorem createdRecs_id_bounds (assign : Str → Str) (rn : Str) (n : Nat)
    (ips : List Str) :
    ∀ r ∈ createdRecs assign rn n ips, n ≤ r.id ∧ r.id < n + ips.length := by
  induction ips generalizing n with
  | nil => simp [createdRecs]
  | cons ip ips ih =>
    intro r hr
    rcases List.mem_cons.mp hr with h | h
    · subst h
      refine ⟨Nat.le_refl n, ?_⟩
      show n < n + (ips.length + 1)
      omega
    · have := ih (n + 1) r h
      simp only [List.length_cons]
      omega

theorem createdRecs_ids_nodup (assign : Str → Str) (rn : Str) (n : Nat)
    (ips : List Str) :
    ((createdRecs assign rn n ips).map (fun r => r.id)).Nodup := by
  induction ips generalizing n with
  | nil => simp [createdRecs]
  | cons ip ips ih =>
    simp only [createdRecs, List.map_cons, List.nodup_cons]
    refine ⟨?_, ih (n + 1)⟩
    intro hmem
    obtain ⟨r, hr, hid⟩ := List.mem_map.mp hmem
    have := (createdRecs_id_bounds assign rn (n + 1) ips r hr).1
    omega

theorem map_strip_filter (l : List DNSRec) (d : Str) :
    (l.filter (fun r => decide (¬ r.qname = d))).map (fun r => (r.qname, r.content)) =
      (l.map (fun r => (r.qname, r.content))).filter (fun p => decide (¬ p.1 = d)) := by
  rw [List.filter_map]
  exact congrArg _ (List.filter_congr (fun r _ => rfl))

/-- Decidability of store well-formedness, for concrete witnesses. -/
instance (s : CFState) : Decidable (WF s) := by
  unfold WF
  infer_instance

theorem filter_not_mem_get (s : CFState) (d : Str)
    (hnd : (s.records.map (fun r => r.id)).Nodup) :
    s.records.filter (fun r => decide (r.id ∉ getDNSRecords d s)) =
      s.records.filter (fun r => decide (¬ r.qname = d)) := by
  apply List.filter_congr
  intro r hr
  have hiff : r.id ∈ getDNSRecords d s ↔ r.qname = d := by
    constructor
    · intro hid
      simp only [getDNSRecords, List.mem_map] at hid
      obtain ⟨r', hr', hideq⟩ := hid
      have hr'mem : r' ∈ s.records := List.mem_of_mem_filter hr'
      have hrr : r' = r := List.inj_on_of_nodup_map hnd hr'mem hr hideq
      have := List.mem_filter.mp hr'
      rw [← hrr]
      simpa using this.2
    · intro hq
      simp only [getDNSRecords, List.mem_map]
      exact ⟨r, List.mem_filter.mpr ⟨hr, by simp [hq]⟩, rfl⟩
  by_cases h : r.qname = d <;> simp [hiff, h]

/-- One updateCloudflareDNS call on a well-formed store: observably it
removes every pair stored under the domain name and appends the new pairs
under the canonicalized record name, and well-formedness is preserved. -/
theorem updateCF_obs_wf (assign : Str → Str) (d : Str) (ips : List Str)
    (zone : Str) (w : W) (hwf : WF w.state) :
    obs (updateCloudflareDNS assign d ips zone w).state =
      (obs w.state).filter (fun p => decide (¬ p.1 = d))
        ++ ips.map (fun ip => (assign (recordNameOf d zone), ip))
    ∧ WF (updateCloudflareDNS assign d ips zone w).state := by
  rw [updateCF_eq]
  dsimp only [obs, WF]
  refine ⟨?_, ?_, ?_⟩
  · rw [List.map_append, filter_not_mem_get w.state d hwf.1,
      createdRecs_strip, map_strip_filter]
  · rw [List.map_append]
    apply List.Nodup.append
    · exact List.Nodup.sublist
        (List.Sublist.map (fun r : DNSRec => r.id) (List.filter_sublist _)) hwf.1
    · exact createdRecs_ids_nodup assign (recordNameOf d zone)
        w.state.nextId ips
    · intro a ha hb
      obtain ⟨r, hr, rfl⟩ := List.mem_map.mp ha
      obtain ⟨r', hr', hid⟩ := List.mem_map.mp hb
      have h1 : r.id < w.state.nextId :=
        hwf.2 r (List.mem_of_mem_filter hr)
      have h2 := (createdRecs_id_bounds assign (recordNameOf d zone)
        w.state.nextId ips r' hr').1
      omega
  · intro r hr
    rcases List.mem_append.mp hr with h | h
    · have := hwf.2 r (List.mem_of_mem_filter h)
      omega
    · have := (createdRecs_id_bounds assign (recordNameOf d zone)
        w.state.nextId ips r h).2
      omega

/-- One observable reconciliation step for one domain: drop the pairs under
the queried name, append the created pairs. -/
def stepObs (assign : Str → Str) (zone : Str) (x : List (Str × Str))
    (e : Str × List Str) : List (Str × Str) :=
  x.filter (fun p => decide (¬ p.1 = e.1))
    ++ e.2.map (fun ip => (assign (recordNameOf e.1 zone), ip))

/-- The observable effect of a whole reconciliation run, as a fold of
per-domain steps. -/
def applyPlan (assign : Str → Str) (zone : Str)
    (plan : List (Str × List Str)) (x : List (Str × Str)) : List (Str × Str) :=
  plan.foldl (stepObs assign zone) x

/-- The per-domain work list updateDNSStrategy executes: nothing without
credentials; the capped fan-out for a single domain; the 1:1 pairs
otherwise. -/
def planOf (cfg : ApiCfg) (domains ips : List Str) : List (Str × List Str) :=
  if cfg.zoneID = [] ∨ cfg.apiKey = [] then []
  else
    match domains with
    | [d] => [(d, if effLimit cfg.maxResult < (ips.length : Int)
        then ips.take (effLimit cfg.maxResult).toNat else ips)]
    | _ => (domains.zip ips).map (fun p => (p.1, [p.2]))

theorem multiLoop_obs_wf (assign : Str → Str) (zone : Str)
    (domains ips : List Str) (w : W) (hwf : WF w.state) :
    obs (multiLoop assign zone domains ips w).state =
      applyPlan assign zone ((domains.zip ips).map (fun p => (p.1, [p.2])))
        (obs w.state)
    ∧ WF (multiLoop assign zone domains ips w).state := by
  induction domains generalizing ips w with
  | nil => simpa [multiLoop, applyPlan] using hwf
  | cons d drest ih =>
    cases ips with
    | nil => simpa [multiLoop, applyPlan] using hwf
    | cons ip irest =>
      have hcf := updateCF_obs_wf assign d [ip] zone (doLog (.arrow d ip) w)
        (by simpa [doLog] using hwf)
      have hrec := ih irest
        (updateCloudflareDNS assign d [ip] zone (doLog (.arrow d ip) w)) hcf.2
      rw [multiLoop]
      refine ⟨?_, hrec.2⟩
      rw [hrec.1, hcf.1]
      simp [applyPlan, stepObs, doLog, obs]

/-- The observable effect and well-formedness preservation of one whole
updateDNSStrategy run. -/
theorem strategy_obs_wf (assign : Str → Str) (cfg : ApiCfg)
    (domains ips : List Str) (zone : Str) (w : W) (hwf : WF w.state) :
    obs (updateDNSStrategy assign cfg domains ips zone w).state =
      applyPlan assign zone (planOf cfg domains ips) (obs w.state)
    ∧ WF (updateDNSStrategy assign cfg domains ips zone w).state := by
  by_cases hcred : cfg.zoneID = [] ∨ cfg.apiKey = []
  · simpa [updateDNSStrategy, planOf, hcred, doLog, applyPlan] using hwf
  · match domains with
    | [] =>
      have hrun : updateDNSStrategy assign cfg [] ips zone w =
          multiLoop assign zone [] ips (doLog (.updateMulti 0) w) := by
        simp only [updateDNSStrategy, hcred, if_false, List.length_nil]
      have h := multiLoop_obs_wf assign zone [] ips
        (doLog (.updateMulti 0) w) hwf
      rw [hrun]
      refine ⟨?_, h.2⟩
      rw [h.1]
      simp [planOf, hcred, doLog, obs]
    | [d] =>
      have hrun : updateDNSStrategy assign cfg [d] ips zone w =
          updateCloudflareDNS assign d
            (if effLimit cfg.maxResult < (ips.length : Int)
              then ips.take (effLimit cfg.maxResult).toNat else ips) zone
            (doLog (.updateSingle d) w) := by
        simp only [updateDNSStrategy, hcred, if_false]
      have hcf := updateCF_obs_wf assign d
        (if effLimit cfg.maxResult < (ips.length : Int)
          then ips.take (effLimit cfg.maxResult).toNat else ips) zone
        (doLog (.updateSingle d) w) hwf
      rw [hrun]
      refine ⟨?_, hcf.2⟩
      rw [hcf.1]
      simp [planOf, hcred, applyPlan, stepObs, doLog, obs]
    | a :: b :: t =>
      have hrun : updateDNSStrategy assign cfg (a :: b :: t) ips zone w =
          multiLoop assign zone (a :: b :: t) ips
            (doLog (.updateMulti (a :: b :: t).length) w) := by
        simp only [updateDNSStrategy, hcred, if_false]
      have h := multiLoop_obs_wf assign zone (a :: b :: t) ips
        (doLog (.updateMulti (a :: b :: t).length) w) hwf
      rw [hrun]
      refine ⟨?_, h.2⟩
      rw [h.1]
      simp [planOf, hcred, doLog, obs]

/-- The first components of the plan entries. -/
def planKeys (plan : List (Str × List Str)) : List Str := plan.map Prod.fst

/-- The part of the final observable store a reconciliation run determines
on its own, independent of the initial store. -/
def constPart (assign : Str → Str) (zone : Str) :
    List (Str × List Str) → List (Str × Str)
  | [] => []
  | e :: rest =>
      ((e.2.map (fun ip => (assign (recordNameOf e.1 zone), ip))).filter
        (fun p => decide (p.1 ∉ planKeys rest))) ++ constPart assign zone rest

theorem applyPlan_shape (assign : Str → Str) (zone : Str)
    (plan : List (Str × List Str)) (x : List (Str × Str)) :
    applyPlan assign zone plan x =
      x.filter (fun p => decide (p.1 ∉ planKeys plan))
        ++ constPart assign zone plan := by
  induction plan generalizing x with
  | nil =>
    have hfl : x.filter (fun p => decide (p.1 ∉ planKeys [])) = x :=
      List.filter_eq_self.mpr (fun p _ => by simp [planKeys])
    show x = _
    rw [hfl, constPart, List.append_nil]
  | cons e rest ih =>
    show applyPlan assign zone rest (stepObs assign zone x e) = _
    rw [ih, stepObs, List.filter_append, List.filter_filter]
    have hpred : (fun p : Str × Str =>
        decide (p.1 ∉ planKeys rest) && decide (¬ p.1 = e.1)) =
        fun p => decide (p.1 ∉ planKeys (e :: rest)) := by
      funext p
      by_cases h1 : p.1 = e.1 <;> by_cases h2 : p.1 ∈ planKeys rest <;>
        simp [planKeys, h1, h2]
    rw [hpred]
    simp [constPart, planKeys, List.append_assoc]

theorem constPart_keys (assign : Str → Str) (zone : Str)
    (plan : List (Str × List Str))
    (hkeys : ∀ e ∈ plan, assign (recordNameOf e.1 zone) = e.1) :
    ∀ p ∈ constPart assign zone plan, p.1 ∈ planKeys plan := by
  induction plan with
  | nil => simp [constPart]
  | cons e rest ih =>
    intro p hp
    rcases List.mem_append.mp hp with h | h
    · obtain ⟨ip, _, rfl⟩ := List.mem_map.mp (List.mem_of_mem_filter h)
      simp [planKeys, hkeys e (List.mem_cons_self e rest)]
    · have := ih (fun e' he' => hkeys e' (List.mem_cons_of_mem e he')) p h
      simp [planKeys] at this ⊢
      exact Or.inr this

theorem applyPlan_idem (assign : Str → Str) (zone : Str)
    (plan : List (Str × List Str)) (x : List (Str × Str))
    (hkeys : ∀ e ∈ plan, assign (recordNameOf e.1 zone) = e.1) :
    applyPlan assign zone plan (applyPlan assign zone plan x) =
      applyPlan assign zone plan x := by
  rw [applyPlan_shape assign zone plan x,
    applyPlan_shape assign zone plan
      (x.filter (fun p => decide (p.1 ∉ planKeys plan))
        ++ constPart assign zone plan)]
  rw [List.filter_append, List.filter_filter]
  have h1 : (fun p : Str × Str =>
      decide (p.1 ∉ planKeys plan) && decide (p.1 ∉ planKeys plan)) =
      fun p => decide (p.1 ∉ planKeys plan) := by
    funext p; by_cases h : p.1 ∈ planKeys plan <;> simp [h]
  have h2 : (constPart assign zone plan).filter
      (fun p => decide (p.1 ∉ planKeys plan)) = [] := by
    rw [List.filter_eq_nil_iff]
    intro p hp
    simpa using constPart_keys assign zone plan hkeys p hp
  rw [h1, h2]
  simp

theorem planOf_keys_mem (cfg : ApiCfg) (domains ips : List Str) :
    ∀ e ∈ planOf cfg domains ips, e.1 ∈ domains := by
  intro e he
  by_cases hcred : cfg.zoneID = [] ∨ cfg.apiKey = []
  · simp [planOf, hcred] at he
  · match domains with
    | [] => simp [planOf, hcred] at he
    | [d] =>
      simp only [planOf, hcred, if_false, List.mem_singleton] at he
      subst he
      exact List.mem_singleton.mpr rfl
    | a :: b :: t =>
      simp only [planOf, hcred, if_false, List.mem_map] at he
      obtain ⟨p, hp, rfl⟩ := he
      exact (List.of_mem_zip hp).1

/-- C4: running reconciliation twice with identical inputs over the modeled
remote store (changed only by the run's own operations, every call
succeeding, names canonicalized consistently with the computed record
names) leaves the same observable record set as a single run. -/
theorem reconcile_idempotent (assign : Str → Str) (cfg : ApiCfg)
    (domains ips : List Str) (zone : Str) (s₀ : CFState)
    (hwf : WF s₀)
    (hassign : ∀ d ∈ domains, assign (recordNameOf d zone) = d) :
    obs (updateDNSStrategy assign cfg domains ips zone
        ⟨(updateDNSStrategy assign cfg domains ips zone ⟨s₀, []⟩).state, []⟩).state
      = obs (updateDNSStrategy assign cfg domains ips zone ⟨s₀, []⟩).state := by
  have h1 := strategy_obs_wf assign cfg domains ips zone ⟨s₀, []⟩ hwf
  have h2 := strategy_obs_wf assign cfg domains ips zone
    ⟨(updateDNSStrategy assign cfg domains ips zone ⟨s₀, []⟩).state, []⟩ h1.2
  rw [h2.1]
  show applyPlan assign zone (planOf cfg domains ips)
    (obs (updateDNSStrategy assign cfg domains ips zone ⟨s₀, []⟩).state) = _
  rw [h1.1]
  exact applyPlan_idem assign zone (planOf cfg domains ips) (obs s₀)
    (fun e he => hassign e.1 (planOf_keys_mem cfg domains ips e he))

/-- Witness for reconcile_idempotent: a concrete single-domain run over a
store holding one stale record, with the observed canonicalization. -/
theorem reconcile_idempotent_witness :
    WF ⟨[⟨0, str "sub.example.com", str "8.8.8.8"⟩], 1⟩
    ∧ (∀ d ∈ [str "sub.example.com"],
        cfAssign (str "example.com") (recordNameOf d (str "example.com")) = d)
    ∧ obs (updateDNSStrategy (cfAssign (str "example.com"))
        ⟨str "z", str "k", 10⟩ [str "sub.example.com"] [str "1.1.1.1"]
        (str "example.com")
        ⟨(updateDNSStrategy (cfAssign (str "example.com")) ⟨str "z", str "k", 10⟩
            [str "sub.example.com"] [str "1.1.1.1"] (str "example.com")
            ⟨⟨[⟨0, str "sub.example.com", str "8.8.8.8"⟩], 1⟩, []⟩).state,
          []⟩).state
      = obs (updateDNSStrategy (cfAssign (str "example.com"))
          ⟨str "z", str "k", 10⟩ [str "sub.example.com"] [str "1.1.1.1"]
          (str "example.com")
          ⟨⟨[⟨0, str "sub.example.com", str "8.8.8.8"⟩], 1⟩, []⟩).state := by
  refine ⟨by decide, by decide, ?_⟩
  exact reconcile_idempotent (cfAssign (str "example.com"))
    ⟨str "z", str "k", 10⟩ [str "sub.example.com"] [str "1.1.1.1"]
    (str "example.com") ⟨[⟨0, str "sub.example.com", str "8.8.8.8"⟩], 1⟩
    (by decide) (by decide)

/-! ### Measurement counts, endpoint sources and the run coordinator -/

/-- The required result count (src/main.go:143-147): the effective cap,
raised to the domain count when more than one domain is configured and the
cap falls short of it.  This is the count handed to the result parser. -/
def requiredCountOf (maxResult : Int) (d : Nat) : Int :=
  if 1 < d ∧ effLimit maxResult < (d : Int) then (d : Int)
  else effLimit maxResult

/-- The test count handed to the tool via -dn (src/main.go:149-153): the
configured test count, raised to the required count when it falls short. -/
def testCountOf (testCount maxResult : Int) (d : Nat) : Int :=
  if testCount < requiredCountOf maxResult d then requiredCountOf maxResult d
  else testCount

/-- Whether the adjustment log line of src/main.go:152 fires. -/
def adjustLogged (testCount maxResult : Int) (d : Nat) : Bool :=
  decide (testCount < requiredCountOf maxResult d)

/-- combineFiles (src/main.go:359-367).  Sources carry the content os.Open
would yield, `none` standing for an open failure — which the code silently
skips.  `createFails` models os.Create failing on the destination, the only
error the function can return. -/
def combineFiles (createFails : Bool) (srcs : List (Option Str)) :
    Except Unit Str :=
  if createFails then .error ()
  else .ok (srcs.foldl (fun acc s =>
    match s with
    | some c => acc ++ c ++ ['\n']
    | none => acc) [])

/-- The comma split of strings.Split (src/main.go:334). -/
def splitComma : Str → List Str
  | [] => [[]]
  | c :: rest =>
    let r := splitComma rest
    if c = ',' then [] :: r
    else
      match r with
      | h :: t => (c :: h) :: t
      | [] => [[c]]

/-- ASCII whitespace, the model of strings.TrimSpace's character class. -/
def isSpaceChar (c : Char) : Bool :=
  c = ' ' ∨ c = '\t' ∨ c = '\n' ∨ c = '\r'

def trimStr (s : Str) : Str :=
  ((s.dropWhile isSpaceChar).reverse.dropWhile isSpaceChar).reverse

/-- parseDomains (src/main.go:333-341): split on commas, trim whitespace,
keep the non-empty parts, in order. -/
def parseDomains (input : Str) : List Str :=
  (splitComma input).filterMap (fun p =>
    let t := trimStr p
    if t = [] then none else some t)

/-- The configuration fields the modeled run reads (src/main.go:24-43). -/
structure Config where
  zoneID : Str
  apiKey : Str
  mainDomain : Str
  domains : Str
  ipType : Str
  testCount : Int
  maxResult : Int
deriving DecidableEq

/-- The environment of one run: which files exist and are readable, whether
the child process starts, the decoded result CSV, and the zone-fetch
outcome. -/
structure RunEnv where
  cfstExists : Bool
  createFails : Bool
  ip4 : Option Str
  ip6 : Option Str
  startFails : Bool
  decoded : Option (List Row)
  fetchedZone : Option Str
deriving DecidableEq

/-- runSpeedTestAndUpdateDNS after lock acquisition (src/main.go:95-201).
Modeled observables: the milestone log lines, the API operations and the
remote store.  Not modeled: chmod, the argument vector beyond the counts,
and the streamed child output; the zone-fetch outcome and the decoded
result CSV are supplied by the environment. -/
def runBody (assign : Str → Str) (cfg : Config) (env : RunEnv) (w : W) : W :=
  let w := doLog .taskStart w
  if env.cfstExists = false then doLog .errNoCfst w
  else
    match (if cfg.ipType = str "v6" then Except.ok env.ip6
      else if cfg.ipType = str "both" then
        match combineFiles env.createFails [env.ip4, env.ip6] with
        | .error _ => .error ()
        | .ok c => .ok (some c)
      else .ok env.ip4 : Except Unit (Option Str)) with
    | .error _ => doLog .combineFail w
    | .ok none => doLog .errNoIPFile w
    | .ok (some _) =>
      let domainList := parseDomains cfg.domains
      if domainList = [] then doLog .errNoDomains w
      else
        let zw : Str × W :=
          if cfg.mainDomain = [] ∧ ¬ cfg.zoneID = [] then
            match env.fetchedZone with
            | some z => (z, doLog (.zoneAuto z) w)
            | none => ([], doLog .zoneAutoFail w)
          else (cfg.mainDomain, doLog (.zoneConfigured cfg.mainDomain) w)
        let rc := requiredCountOf cfg.maxResult domainList.length
        let w := if cfg.testCount < rc then doLog (.countAdjusted rc) zw.2
          else zw.2
        let w := doLog .cmdLine w
        if env.startFails then doLog .startFail w
        else
          let ips := parseResultCSV env.decoded rc
          if ips = [] then doLog .noIPs w
          else
            let w := doLog (.gotIPs ips.length) w
            let w := updateDNSStrategy assign
              ⟨cfg.zoneID, cfg.apiKey, cfg.maxResult⟩ domainList ips zw.1 w
            doLog .taskDone w

/-- The coordinator state: whether a run currently holds the exclusive
run-lock, plus the world. -/
structure SysState where
  running : Bool
  w : W
deriving DecidableEq

/-- runSpeedTestAndUpdateDNS including the lock discipline
(src/main.go:88-93): TryLock refuses immediately when a run is in progress,
logging one skip line and touching nothing else; otherwise the body runs
with the lock held and the deferred unlock releases it on every exit
path. -/
def attemptRun (assign : Str → Str) (cfg : Config) (env : RunEnv)
    (st : SysState) : SysState :=
  if st.running then { st with w := doLog .taskSkipped st.w }
  else { running := false, w := runBody assign cfg env st.w }

/-- Recognizes the test-count adjustment log line. -/
def isCountAdjusted : Op → Bool
  | Op.log (.countAdjusted _) => true
  | _ => false

/-- C6 (amended): with more than one domain, the count handed to the result
parser (the required count) and the count handed to the tool (the test
count) are both at least the domain count and at least the effective floor;
a log line fires exactly for the raising of the configured test count, not
for the escalation of the required count itself. -/
theorem countEscalation_bounds (maxResult testCount : Int) (d : Nat)
    (hd : 1 < d) :
    (d : Int) ≤ requiredCountOf maxResult d
    ∧ effLimit maxResult ≤ requiredCountOf maxResult d
    ∧ requiredCountOf maxResult d ≤ testCountOf testCount maxResult d
    ∧ (adjustLogged testCount maxResult d = true ↔
        testCount < requiredCountOf maxResult d) := by
  have htc : requiredCountOf maxResult d ≤ testCountOf testCount maxResult d := by
    unfold testCountOf
    split <;> omega
  have hadj : adjustLogged testCount maxResult d = true ↔
      testCount < requiredCountOf maxResult d := by
    unfold adjustLogged
    exact decide_eq_true_iff
  by_cases hcap : effLimit maxResult < (d : Int)
  · have hreq : requiredCountOf maxResult d = (d : Int) := by
      unfold requiredCountOf
      rw [if_pos ⟨hd, hcap⟩]
    exact ⟨by omega, by omega, htc, hadj⟩
  · have hreq : requiredCountOf maxResult d = effLimit maxResult := by
      unfold requiredCountOf
      rw [if_neg (fun hc => hcap hc.2)]
    exact ⟨by omega, by omega, htc, hadj⟩

/-- Witness for countEscalation_bounds: four domains, cap 3, test count 1. -/
theorem countEscalation_bounds_witness :
    (1 : Nat) < 4
    ∧ ((4 : Int) ≤ requiredCountOf 3 4
      ∧ effLimit 3 ≤ requiredCountOf 3 4
      ∧ requiredCountOf 3 4 ≤ testCountOf 1 3 4
      ∧ (adjustLogged 1 3 4 = true ↔ (1 : Int) < requiredCountOf 3 4)) :=
  ⟨by decide, countEscalation_bounds 3 1 4 (by decide)⟩

/-- C6 counterexample: five domains, configured cap 3, configured test
count 100.  The required count escalates from the floor 3 to 5 (the domain
count), yet the run logs no adjustment line, because the log fires only when
the configured test count is below the required count. -/
theorem countEscalation_log_counterexample :
    requiredCountOf 3 5 = 5
    ∧ effLimit 3 = 3
    ∧ ((runBody (cfAssign (str "x.com")) ⟨str "z", str "k", str "x.com",
        str "a.x.com,b.x.com,c.x.com,d.x.com,e.x.com", str "v4", 100, 3⟩
        ⟨true, false, some (str "1.1.1.1"), none, false,
          some [[str "IP"], [str "1.1.1.1"]], none⟩
        ⟨⟨[], 0⟩, []⟩).trace.filter isCountAdjusted) = [] := by
  decide

/-- C7 (amended): combining the endpoint files concatenates the readable
sources in order, appending one newline after each input's content; a source
that fails to open is silently skipped rather than failing the run; the only
failing case is the destination create, the one error the caller logs. -/
theorem combineFiles_behavior (c4 c6 : Str) :
    combineFiles false [some c4, some c6] = Except.ok (c4 ++ '\n' :: (c6 ++ ['\n']))
    ∧ combineFiles false [some c4, none] = Except.ok (c4 ++ ['\n'])
    ∧ combineFiles false [none, some c6] = Except.ok (c6 ++ ['\n'])
    ∧ combineFiles true [some c4, some c6] = Except.error () := by
  refine ⟨?_, ?_, ?_, rfl⟩ <;> simp [combineFiles]

/-- C7 counterexample: in mode both with the v6 source unreadable, the
combine succeeds with the v4 content alone (the claim demands the run fail):
the coordinator logs no combine failure and still reaches the task-completed
milestone. -/
theorem combineFiles_counterexample :
    combineFiles false [some (str "1.1.1.1"), none] =
      Except.ok (str "1.1.1.1" ++ ['\n'])
    ∧ ((runBody (cfAssign (str "example.com")) ⟨str "z", str "k",
        str "example.com", str "sub.example.com", str "both", 10, 10⟩
        ⟨true, false, some (str "1.1.1.1"), none, false,
          some [[str "IP"], [str "2.2.2.2"]], none⟩
        ⟨⟨[], 0⟩, []⟩).trace.filter
          (fun op => decide (op = Op.log .combineFail))) = []
    ∧ (runBody (cfAssign (str "example.com")) ⟨str "z", str "k",
        str "example.com", str "sub.example.com", str "both", 10, 10⟩
        ⟨true, false, some (str "1.1.1.1"), none, false,
          some [[str "IP"], [str "2.2.2.2"]], none⟩
        ⟨⟨[], 0⟩, []⟩).trace.getLast? = some (Op.log .taskDone) := by
  refine ⟨rfl, ?_, ?_⟩ <;> decide

/-- C8: with absent credentials the whole reconciliation step reduces to the
one skipped-log line — no list, delete or create is issued and the store is
untouched, for every input — and a run reaching the reconciliation step
still logs the final task-completed milestone. -/
theorem credsMissing_skip (assign : Str → Str) (zoneID apiKey : Str)
    (s : CFState) (hcred : zoneID = [] ∨ apiKey = []) :
    (∀ (acfg : ApiCfg) (domains ips2 : List Str) (zone : Str) (w : W),
      (acfg.zoneID = [] ∨ acfg.apiKey = []) →
      updateDNSStrategy assign acfg domains ips2 zone w = doLog .apiMissing w)
    ∧ (runBody assign
        ⟨zoneID, apiKey, str "example.com", str "sub.example.com", str "v4", 10, 10⟩
        ⟨true, false, some (str "1.1.1.1"), none, false,
          some [[str "IP"], [str "2.2.2.2"]], none⟩ ⟨s, []⟩).state = s
    ∧ ((runBody assign
        ⟨zoneID, apiKey, str "example.com", str "sub.example.com", str "v4", 10, 10⟩
        ⟨true, false, some (str "1.1.1.1"), none, false,
          some [[str "IP"], [str "2.2.2.2"]], none⟩ ⟨s, []⟩).trace.filter isApiOp) = []
    ∧ Op.log .apiMissing ∈ (runBody assign
        ⟨zoneID, apiKey, str "example.com", str "sub.example.com", str "v4", 10, 10⟩
        ⟨true, false, some (str "1.1.1.1"), none, false,
          some [[str "IP"], [str "2.2.2.2"]], none⟩ ⟨s, []⟩).trace
    ∧ (runBody assign
        ⟨zoneID, apiKey, str "example.com", str "sub.example.com", str "v4", 10, 10⟩
        ⟨true, false, some (str "1.1.1.1"), none, false,
          some [[str "IP"], [str "2.2.2.2"]], none⟩ ⟨s, []⟩).trace.getLast? =
        some (Op.log .taskDone) := by
  have hA : ∀ (acfg : ApiCfg) (domains ips2 : List Str) (zone : Str) (w : W),
      (acfg.zoneID = [] ∨ acfg.apiKey = []) →
      updateDNSStrategy assign acfg domains ips2 zone w = doLog .apiMissing w := by
    intro acfg domains ips2 zone w h
    simp only [updateDNSStrategy, if_pos h]
  have hrun : runBody assign
      ⟨zoneID, apiKey, str "example.com", str "sub.example.com", str "v4", 10, 10⟩
      ⟨true, false, some (str "1.1.1.1"), none, false,
        some [[str "IP"], [str "2.2.2.2"]], none⟩ ⟨s, []⟩ =
      ⟨s, [Op.log .taskStart, Op.log (.zoneConfigured (str "example.com")),
        Op.log .cmdLine, Op.log (.gotIPs 1), Op.log .apiMissing,
        Op.log .taskDone]⟩ := by
    have e1 : (str "v4" = str "v6") = False := eq_false (by decide)
    have e2 : (str "v4" = str "both") = False := eq_false (by decide)
    have e3 : parseDomains (str "sub.example.com") = [str "sub.example.com"] := by
      decide
    have e4 : (str "example.com" = ([] : Str)) = False := eq_false (by decide)
    have e5 : parseResultCSV (some [[str "IP"], [str "2.2.2.2"]])
        (requiredCountOf 10 1) = [str "2.2.2.2"] := by decide
    have e6 : ((10 : Int) < requiredCountOf 10 1) = False := eq_false (by decide)
    have e7 : (zoneID = [] ∨ apiKey = []) = True := eq_true hcred
    simp only [runBody, updateDNSStrategy, doLog, e1, e2, e3, e4, e5, e6, e7,
      if_true, if_false, false_and, Bool.false_eq_true, List.length_cons,
      List.length_nil, List.nil_append, List.singleton_append, List.cons_append]
    rfl
  rw [hrun]
  refine ⟨hA, rfl, ?_, ?_, ?_⟩
  · show List.filter isApiOp [Op.log .taskStart,
      Op.log (.zoneConfigured (str "example.com")), Op.log .cmdLine,
      Op.log (.gotIPs 1), Op.log .apiMissing, Op.log .taskDone] = []
    decide
  · show Op.log .apiMissing ∈ [Op.log .taskStart,
      Op.log (.zoneConfigured (str "example.com")), Op.log .cmdLine,
      Op.log (.gotIPs 1), Op.log .apiMissing, Op.log .taskDone]
    decide
  · show List.getLast? [Op.log .taskStart,
      Op.log (.zoneConfigured (str "example.com")), Op.log .cmdLine,
      Op.log (.gotIPs 1), Op.log .apiMissing, Op.log .taskDone] =
      some (Op.log .taskDone)
    decide

/-- Witness for credsMissing_skip: empty zone identifier, concrete store. -/
theorem credsMissing_skip_witness :
    ((str "" = ([] : Str)) ∨ (str "k" = ([] : Str)))
    ∧ (runBody (cfAssign (str "example.com"))
        ⟨str "", str "k", str "example.com", str "sub.example.com", str "v4", 10, 10⟩
        ⟨true, false, some (str "1.1.1.1"), none, false,
          some [[str "IP"], [str "2.2.2.2"]], none⟩
        ⟨⟨[], 0⟩, []⟩).trace.getLast? = some (Op.log .taskDone) :=
  ⟨Or.inl (by decide),
    (credsMissing_skip (cfAssign (str "example.com")) (str "") (str "k")
      ⟨[], 0⟩ (Or.inl (by decide))).2.2.2.2⟩

/-- C9: an attempt started while a run is in progress is refused with
exactly one skipped-log line and no other effect — the store and the lock
owner are untouched and the body never runs; an attempt that acquires the
lock releases it on every exit path, whatever the environment makes the body
do.  The non-blocking TryLock is modeled as the immediate refusal branch. -/
theorem runLock_spec (assign : Str → Str) (cfg : Config) (env : RunEnv)
    (st : SysState) :
    (st.running = true → attemptRun assign cfg env st =
      ⟨true, ⟨st.w.state, st.w.trace ++ [Op.log .taskSkipped]⟩⟩)
    ∧ (st.running = false → (attemptRun assign cfg env st).running = false) := by
  constructor
  · intro h
    cases st with
    | mk running w =>
      cases w with
      | mk s tr =>
        simp only at h
        subst h
        rfl
  · intro h
    simp [attemptRun, h]

/-- Witness for runLock_spec at both lock states. -/
theorem runLock_spec_witness :
    attemptRun (cfAssign (str "x.com"))
        ⟨str "z", str "k", str "x.com", str "a.x.com", str "v4", 10, 10⟩
        ⟨true, false, some (str "1.1.1.1"), none, false,
          some [[str "IP"], [str "1.1.1.1"]], none⟩
        ⟨true, ⟨⟨[], 0⟩, []⟩⟩ = ⟨true, ⟨⟨[], 0⟩, [Op.log .taskSkipped]⟩⟩
    ∧ (attemptRun (cfAssign (str "x.com"))
        ⟨str "z", str "k", str "x.com", str "a.x.com", str "v4", 10, 10⟩
        ⟨true, false, some (str "1.1.1.1"), none, false,
          some [[str "IP"], [str "1.1.1.1"]], none⟩
        ⟨false, ⟨⟨[], 0⟩, []⟩⟩).running = false :=
  ⟨(runLock_spec (cfAssign (str "x.com"))
      ⟨str "z", str "k", str "x.com", str "a.x.com", str "v4", 10, 10⟩
      ⟨true, false, some (str "1.1.1.1"), none, false,
        some [[str "IP"], [str "1.1.1.1"]], none⟩
      ⟨true, ⟨⟨[], 0⟩, []⟩⟩).1 rfl,
    (runLock_spec (cfAssign (str "x.com"))
      ⟨str "z", str "k", str "x.com", str "a.x.com", str "v4", 10, 10⟩
      ⟨true, false, some (str "1.1.1.1"), none, false,
        some [[str "IP"], [str "1.1.1.1"]], none⟩
      ⟨false, ⟨⟨[], 0⟩, []⟩⟩).2 rfl⟩

end CFST
